import Mathlib

/-!
Shallow embedding of the `CounterSession` durable object from `src/index.js`
(repository mehrantsi/resumable-stream), together with theorems about the
claims of its specification.

The durable object keeps:
  * `this.counter`   : `null` until lazily loaded from durable storage;
  * `this.clients`   : a `Set` of `{ controller }` objects, one per live SSE
                       subscriber, in insertion order;
  * `this.intervalId`: the handle returned by `setInterval`, or `null`.

We model one session as an explicit state machine.  Machine integers are
`Nat` (the counter only ever grows by `++`, overflow is out of scope per the
spec).  The durable store is a single `Option Nat` cell (the `"counter"`
key).  Client object identity (fresh `{ controller }` object per request)
is modelled by allocating a fresh numeric id per attach; timer handles from
`setInterval` are likewise allocated fresh ids, and `liveTimers` records the
handles created and not yet cleared, so that claims about "at most one
timer" are expressible.  A subscriber whose stream controller throws on
`enqueue` is modelled by the `broken` flag.

Every externally visible effect is logged as an event:
  * `Ev.get v`             — `await this.state.storage.get("counter")`
                             returned `v`;
  * `Ev.put v`             — `await this.state.storage.put("counter", v)`
                             completed;
  * `Ev.deliver cid v p c` — `controller.enqueue` of the encoded record `p`
                             (holding counter value `v`) succeeded on the
                             client with id `cid`; `c` is true when the
                             enqueue is the immediate catch-up push in
                             `fetch` and false when it happens in the tick
                             loop of `startCounting`.
-/

namespace ResumableStream

/-- One live SSE subscriber: the identity of the `const client = { controller }`
object added to `this.clients`, plus whether its controller throws on
`enqueue` (a dead / rejected channel). -/
structure Client where
  id : Nat
  broken : Bool
deriving Repr, DecidableEq

/-- The in-memory and durable state of one `CounterSession` instance.
`counter`, `clients` and `intervalId` mirror the constructor's fields;
`storage` is the durable `"counter"` cell; `handlers` records the client ids
for which the `request.signal` abort listener was registered; `nextClientId`
and `nextTimer` model fresh object / timer-handle identity; `liveTimers`
records the `setInterval` handles created and not yet cleared. -/
structure SessionState where
  counter : Option Nat
  clients : List Client
  intervalId : Option Nat
  storage : Option Nat
  handlers : List Nat
  nextClientId : Nat
  nextTimer : Nat
  liveTimers : List Nat
deriving Repr, DecidableEq

/-- The serialized SSE wire record for counter value `v`, as built by
`encoder.encode` of the template literal in the source: `data: <v>\n\n`. -/
def sseRecord (v : Nat) : String :=
  "data: " ++ toString v ++ "\n\n"

/-- Observable events of one session (storage traffic and deliveries). -/
inductive Ev where
  | get (stored : Option Nat)
  | put (v : Nat)
  | deliver (cid : Nat) (v : Nat) (payload : String) (catchup : Bool)
deriving Repr, DecidableEq

/-- HTTP responses the durable object's `fetch` can return. -/
inductive HttpResp where
  | page
  | events
  | notFound
deriving Repr, DecidableEq

/-- HTTP status code of each response. -/
def HttpResp.status : HttpResp → Nat
  | .page => 200
  | .events => 200
  | .notFound => 404

/-- Result of running one operation: the new state, the emitted events,
the HTTP response (`none` for timer/abort callbacks, and for a `fetch`
that threw before returning), and whether an uncaught exception escaped
the operation. -/
structure StepRes where
  state : SessionState
  evs : List Ev
  resp : Option HttpResp
  threw : Bool
deriving Repr, DecidableEq

/-- Operations arriving at one session, serialized by the durable-object
runtime: an HTTP request (`fetch`), the abort signal of the request that
created client `cid`, or one firing of the `setInterval` callback. -/
inductive Op where
  | fetch (path : String) (broken : Bool)
  | abortSig (cid : Nat)
  | tick
deriving Repr, DecidableEq

/-- Direct translation of `startCounting`: `if (this.intervalId) return;`
then `this.intervalId = setInterval(...)` creates a fresh timer. -/
def startCounting (s : SessionState) : SessionState :=
  match s.intervalId with
  | some _ => s
  | none =>
      { s with intervalId := some s.nextTimer,
               liveTimers := s.liveTimers ++ [s.nextTimer],
               nextTimer := s.nextTimer + 1 }

/-- Direct translation of `stopCounting`: `if (this.intervalId)` then
`clearInterval(this.intervalId); this.intervalId = null;`. -/
def stopCounting (s : SessionState) : SessionState :=
  match s.intervalId with
  | some t =>
      { s with intervalId := none, liveTimers := s.liveTimers.erase t }
  | none => s

/-- The `for (const client of this.clients)` loop of the tick: try to
enqueue the record for value `v` on each client; on throw, that client is
deleted from the set.  Returns the surviving clients (in order) and the
successful delivery events (in order). -/
def broadcast : List Client → Nat → List Client × List Ev
  | [], _ => ([], [])
  | c :: rest, v =>
      let r := broadcast rest v
      if c.broken then r
      else (c :: r.1, Ev.deliver c.id v (sseRecord v) false :: r.2)

/-- The `/events` branch of `fetch`: lazily load the counter
(`await storage.get("counter") || 0`), add a fresh client object, then
either start the tick loop (first client) or immediately enqueue the
current value (later clients), and finally register the abort listener.
The immediate enqueue is NOT wrapped in try/catch in the source: if the
controller throws there, the exception escapes `fetch` and the abort
listener is never registered. -/
def attach (broken : Bool) (s : SessionState) : StepRes :=
  let loadEvs : List Ev :=
    match s.counter with
    | none => [Ev.get s.storage]
    | some _ => []
  let ctr : Nat :=
    match s.counter with
    | none => s.storage.getD 0
    | some v => v
  let c : Client := ⟨s.nextClientId, broken⟩
  let s1 : SessionState :=
    { s with counter := some ctr,
             clients := s.clients ++ [c],
             nextClientId := s.nextClientId + 1 }
  if s1.clients.length = 1 then
    { state := { startCounting s1 with handlers := s1.handlers ++ [c.id] },
      evs := loadEvs, resp := some .events, threw := false }
  else if broken then
    { state := s1, evs := loadEvs, resp := none, threw := true }
  else
    { state := { s1 with handlers := s1.handlers ++ [c.id] },
      evs := loadEvs ++ [Ev.deliver c.id ctr (sseRecord ctr) true],
      resp := some .events, threw := false }

/-- The abort listener registered in `fetch`: delete the client, and stop
the tick loop if the set became empty.  If the listener was never
registered for `cid` (the catch-up enqueue threw), the signal has no
effect on the session. -/
def abortStep (cid : Nat) (s : SessionState) : StepRes :=
  if cid ∈ s.handlers then
    let cs := s.clients.filter (fun c => c.id != cid)
    let s1 : SessionState := { s with clients := cs }
    let s2 := if cs.isEmpty then stopCounting s1 else s1
    { state := s2, evs := [], resp := none, threw := false }
  else
    { state := s, evs := [], resp := none, threw := false }

/-- One firing of the `setInterval` callback (only possible while a timer
exists): increment the counter, persist it (`await storage.put`), then
broadcast to every client with per-client try/catch, and stop the loop if
no clients remain. -/
def tickStep (s : SessionState) : StepRes :=
  match s.intervalId with
  | none => { state := s, evs := [], resp := none, threw := false }
  | some _ =>
      let v := s.counter.getD 0 + 1
      let r := broadcast s.clients v
      let s1 : SessionState :=
        { s with counter := some v, storage := some v, clients := r.1 }
      let s2 := if r.1.isEmpty then stopCounting s1 else s1
      { state := s2, evs := Ev.put v :: r.2, resp := none, threw := false }

/-- The durable object's entry points: `fetch` dispatches on the sub-path
exactly as the source (`'/'` or `''` → page shell, `'/events'` → attach,
anything else → 404); abort signals and timer firings are the other two
ways control enters the object. -/
def step (s : SessionState) (op : Op) : StepRes :=
  match op with
  | .fetch path broken =>
      if path = "/" ∨ path = "" then
        { state := s, evs := [], resp := some .page, threw := false }
      else if path = "/events" then
        attach broken s
      else
        { state := s, evs := [], resp := some .notFound, threw := false }
  | .abortSig cid => abortStep cid s
  | .tick => tickStep s

/-- Run a sequence of serialized operations, concatenating their event
traces in order. -/
def run (s : SessionState) : List Op → SessionState × List Ev
  | [] => (s, [])
  | op :: rest =>
      let r := step s op
      let rest' := run r.state rest
      (rest'.1, r.evs ++ rest'.2)

/-- State of a freshly activated (constructed) durable object over a
durable store currently holding `storage0`: `counter = null`, empty client
set, no timer. -/
def initState (storage0 : Option Nat) : SessionState :=
  { counter := none, clients := [], intervalId := none, storage := storage0,
    handlers := [], nextClientId := 0, nextTimer := 0, liveTimers := [] }

/-- Check, along an event trace, that every delivery carries exactly the
value currently held by the durable store (`store` is the store content at
the head of the trace, `Option.getD 0` mirroring the `|| 0` default used
when the cell is absent).  This is the persistence-before-broadcast
property: at the moment of each enqueue the delivered value is already
durably committed. -/
def deliversCommitted (store : Option Nat) : List Ev → Bool
  | [] => true
  | Ev.get _ :: rest => deliversCommitted store rest
  | Ev.put v :: rest => deliversCommitted (some v) rest
  | Ev.deliver _ v _ _ :: rest =>
      (v == store.getD 0) && deliversCommitted store rest

/-- Content of the durable store after an event trace, starting from
`store`. -/
def storeAfter (store : Option Nat) : List Ev → Option Nat
  | [] => store
  | Ev.put v :: rest => storeAfter (some v) rest
  | Ev.get _ :: rest => storeAfter store rest
  | Ev.deliver _ _ _ _ :: rest => storeAfter store rest

/-- Counter values delivered (catch-up and tick alike) to the subscriber
with id `cid`, in trace order. -/
def valuesTo (cid : Nat) : List Ev → List Nat
  | [] => []
  | Ev.deliver c v _ _ :: rest =>
      if c = cid then v :: valuesTo cid rest else valuesTo cid rest
  | _ :: rest => valuesTo cid rest

/-- Counter values delivered to the subscriber with id `cid` by the tick
loop only (the catch-up record excluded), in trace order. -/
def tickValuesTo (cid : Nat) : List Ev → List Nat
  | [] => []
  | Ev.deliver c v _ false :: rest =>
      if c = cid then v :: tickValuesTo cid rest else tickValuesTo cid rest
  | _ :: rest => tickValuesTo cid rest

/-- Number of durable-storage reads in an event trace. -/
def getCount : List Ev → Nat
  | [] => 0
  | Ev.get _ :: rest => getCount rest + 1
  | _ :: rest => getCount rest

/-- The session's effective counter value: the in-memory counter once
loaded, otherwise the value a load would produce from the store. -/
def cv (s : SessionState) : Nat :=
  match s.counter with
  | some v => v
  | none => s.storage.getD 0

/-- Timer-bookkeeping invariant: the set of live (created, not yet
cleared) `setInterval` timers is exactly the one named by `intervalId`. -/
def TimerInv (s : SessionState) : Prop :=
  s.liveTimers = s.intervalId.toList

/-- The broadcast loop keeps exactly the clients whose controller does not
throw, and emits one tick delivery of value `v` to each of them, in set
order. -/
theorem broadcast_spec (cs : List Client) (v : Nat) :
    broadcast cs v =
      (cs.filter (fun c => !c.broken),
       (cs.filter (fun c => !c.broken)).map
         (fun c => Ev.deliver c.id v (sseRecord v) false)) := by
  induction cs with
  | nil => rfl
  | cons c rest ih =>
      cases hb : c.broken <;> simp [broadcast, hb, ih, List.filter_cons]

/-- C9: a request whose sub-path is neither the root nor `/events` gets a
404 not-found response, throws nothing, emits no events, and leaves the
session state (counter, clients, timer, storage) unchanged. -/
theorem c9_unknown_route (s : SessionState) (p : String) (b : Bool)
    (h1 : ¬(p = "/" ∨ p = "")) (h2 : p ≠ "/events") :
    step s (Op.fetch p b) =
      { state := s, evs := [], resp := some HttpResp.notFound, threw := false } ∧
    HttpResp.status HttpResp.notFound = 404 := by
  rw [step]
  simp [h1, h2, HttpResp.status]

/-- Closed instance of `c9_unknown_route` at the concrete path `/foo`. -/
theorem c9_unknown_route_witness :
    step (initState none) (Op.fetch "/foo" false) =
      { state := initState none, evs := [], resp := some HttpResp.notFound,
        threw := false } ∧
    HttpResp.status HttpResp.notFound = 404 :=
  c9_unknown_route (initState none) "/foo" false (by decide) (by decide)

/-- C2: attaching to a session whose in-memory counter is `n` and whose
subscriber set is already non-empty delivers exactly one immediate
catch-up record `data: n\n\n` to the new subscriber, returns the stream
response without throwing, leaves the other subscribers, the counter, the
store and the timer untouched, and in any continued run this catch-up
event precedes every later (tick-driven) event. -/
theorem c2_catchup_push (s : SessionState) (n : Nat)
    (h1 : s.clients ≠ []) (h2 : s.counter = some n) :
    (step s (Op.fetch "/events" false)).evs =
      [Ev.deliver s.nextClientId n (sseRecord n) true] ∧
    (step s (Op.fetch "/events" false)).state =
      { s with clients := s.clients ++ [⟨s.nextClientId, false⟩],
               handlers := s.handlers ++ [s.nextClientId],
               nextClientId := s.nextClientId + 1 } ∧
    (step s (Op.fetch "/events" false)).resp = some HttpResp.events ∧
    (step s (Op.fetch "/events" false)).threw = false ∧
    ∀ rest, (run s (Op.fetch "/events" false :: rest)).2 =
      Ev.deliver s.nextClientId n (sseRecord n) true ::
        (run (step s (Op.fetch "/events" false)).state rest).2 := by
  obtain ⟨c0, cl, iv, st, hd, nc, nt, lt⟩ := s
  simp only at h1 h2
  subst h2
  refine ⟨?_, ?_, ?_, ?_, ?_⟩ <;>
    simp [step, attach, run, h1]

/-- Closed instance of `c2_catchup_push`: a session at counter 5 with one
live subscriber; the second subscriber gets the immediate record for 5. -/
theorem c2_catchup_push_witness :
    (step { counter := some 5, clients := [⟨0, false⟩], intervalId := some 0,
            storage := some 5, handlers := [0], nextClientId := 1,
            nextTimer := 1, liveTimers := [0] }
        (Op.fetch "/events" false)).evs =
      [Ev.deliver 1 5 (sseRecord 5) true] ∧
    (step { counter := some 5, clients := [⟨0, false⟩], intervalId := some 0,
            storage := some 5, handlers := [0], nextClientId := 1,
            nextTimer := 1, liveTimers := [0] }
        (Op.fetch "/events" false)).state =
      { counter := some 5, clients := [⟨0, false⟩, ⟨1, false⟩],
        intervalId := some 0, storage := some 5, handlers := [0, 1],
        nextClientId := 2, nextTimer := 1, liveTimers := [0] } ∧
    (step { counter := some 5, clients := [⟨0, false⟩], intervalId := some 0,
            storage := some 5, handlers := [0], nextClientId := 1,
            nextTimer := 1, liveTimers := [0] }
        (Op.fetch "/events" false)).resp = some HttpResp.events ∧
    (step { counter := some 5, clients := [⟨0, false⟩], intervalId := some 0,
            storage := some 5, handlers := [0], nextClientId := 1,
            nextTimer := 1, liveTimers := [0] }
        (Op.fetch "/events" false)).threw = false ∧
    ∀ rest,
      (run { counter := some 5, clients := [⟨0, false⟩], intervalId := some 0,
             storage := some 5, handlers := [0], nextClientId := 1,
             nextTimer := 1, liveTimers := [0] }
          (Op.fetch "/events" false :: rest)).2 =
        Ev.deliver 1 5 (sseRecord 5) true ::
          (run (step { counter := some 5, clients := [⟨0, false⟩],
                       intervalId := some 0, storage := some 5,
                       handlers := [0], nextClientId := 1, nextTimer := 1,
                       liveTimers := [0] }
              (Op.fetch "/events" false)).state rest).2 :=
  c2_catchup_push
    { counter := some 5, clients := [⟨0, false⟩], intervalId := some 0,
      storage := some 5, handlers := [0], nextClientId := 1,
      nextTimer := 1, liveTimers := [0] } 5 (by decide) (by decide)

/-- C5: attaching the first subscriber (empty subscriber set) delivers no
immediate catch-up record; the tick loop starts, and the first value that
subscriber observes is produced by the next tick: the in-memory counter
(loaded from storage with default 0 if necessary) plus one. -/
theorem c5_first_attach_no_catchup (s : SessionState)
    (h1 : s.clients = []) :
    (∀ e ∈ (step s (Op.fetch "/events" false)).evs,
        ∀ cid v p b, e ≠ Ev.deliver cid v p b) ∧
    (step s (Op.fetch "/events" false)).state.clients =
      [⟨s.nextClientId, false⟩] ∧
    (step s (Op.fetch "/events" false)).state.intervalId.isSome = true ∧
    (step s (Op.fetch "/events" false)).threw = false ∧
    (step s (Op.fetch "/events" false)).resp = some HttpResp.events ∧
    (step (step s (Op.fetch "/events" false)).state Op.tick).evs =
      [Ev.put (s.counter.getD (s.storage.getD 0) + 1),
       Ev.deliver s.nextClientId (s.counter.getD (s.storage.getD 0) + 1)
         (sseRecord (s.counter.getD (s.storage.getD 0) + 1)) false] := by
  obtain ⟨c0, cl, iv, st, hd, nc, nt, lt⟩ := s
  simp only at h1
  subst h1
  cases c0 <;> cases iv <;>
    simp [step, attach, startCounting, tickStep, broadcast]

/-- Closed instance of `c5_first_attach_no_catchup` on a fresh session
over a store holding 7. -/
theorem c5_first_attach_no_catchup_witness :
    (∀ e ∈ (step (initState (some 7)) (Op.fetch "/events" false)).evs,
        ∀ cid v p b, e ≠ Ev.deliver cid v p b) ∧
    (step (initState (some 7)) (Op.fetch "/events" false)).state.clients =
      [⟨(initState (some 7)).nextClientId, false⟩] ∧
    (step (initState (some 7))
        (Op.fetch "/events" false)).state.intervalId.isSome = true ∧
    (step (initState (some 7)) (Op.fetch "/events" false)).threw = false ∧
    (step (initState (some 7)) (Op.fetch "/events" false)).resp =
      some HttpResp.events ∧
    (step (step (initState (some 7)) (Op.fetch "/events" false)).state
        Op.tick).evs =
      [Ev.put ((initState (some 7)).counter.getD
          (((initState (some 7)).storage).getD 0) + 1),
       Ev.deliver (initState (some 7)).nextClientId
         ((initState (some 7)).counter.getD
           (((initState (some 7)).storage).getD 0) + 1)
         (sseRecord ((initState (some 7)).counter.getD
           (((initState (some 7)).storage).getD 0) + 1)) false] :=
  c5_first_attach_no_catchup (initState (some 7)) (by decide)

/-- C8 (Scenario D): a freshly activated session over durable counter 42,
with no live subscribers: the first attach starts the tick loop (reading
42 from storage, delivering nothing yet), and the next tick broadcasts
exactly the record `data: 43\n\n` — the persisted value plus one. -/
theorem c8_restart_scenario :
    (step (initState (some 42)) (Op.fetch "/events" false)).state.intervalId.isSome
        = true ∧
    (step (initState (some 42)) (Op.fetch "/events" false)).evs =
      [Ev.get (some 42)] ∧
    (step (step (initState (some 42)) (Op.fetch "/events" false)).state
        Op.tick).evs =
      [Ev.put 43, Ev.deliver 0 43 (sseRecord 43) false] ∧
    sseRecord 43 = "data: 43\n\n" := by
  decide

/-- Stopping the timer never touches the client set. -/
theorem stopCounting_clients (s : SessionState) :
    (stopCounting s).clients = s.clients := by
  unfold stopCounting
  cases s.intervalId <;> rfl

/-- C4 counterexample: at a session with counter 5 and one live
subscriber, a second subscriber whose controller throws on the immediate
catch-up enqueue makes `fetch` itself throw — the enqueue at the catch-up
site is not wrapped in try/catch — and the failing subscriber is NOT
detached: it remains in the client set.  This contradicts the claim that
every delivery failure, including the catch-up delivery on attach, is
caught locally and triggers detachment of that subscriber. -/
theorem c4_counterexample :
    (step { counter := some 5, clients := [⟨0, false⟩], intervalId := some 0,
            storage := some 5, handlers := [0], nextClientId := 1,
            nextTimer := 1, liveTimers := [0] }
        (Op.fetch "/events" true)).threw = true ∧
    (⟨1, true⟩ : Client) ∈
      (step { counter := some 5, clients := [⟨0, false⟩], intervalId := some 0,
              storage := some 5, handlers := [0], nextClientId := 1,
              nextTimer := 1, liveTimers := [0] }
          (Op.fetch "/events" true)).state.clients := by
  decide

/-- C4 (amended): during a tick broadcast, a delivery failure is caught
locally, detaches only the failing subscribers, does not abort delivery to
the remaining subscribers and never makes the tick loop throw; the
immediate catch-up delivery on attach, however, is not guarded: if it
throws, the exception escapes `fetch`, nothing is delivered, and the
failing subscriber remains attached (its abort handler never registered). -/
theorem c4_amended :
    (∀ s t, s.intervalId = some t →
      (step s Op.tick).threw = false ∧
      (step s Op.tick).state.clients = s.clients.filter (fun c => !c.broken) ∧
      (step s Op.tick).evs =
        Ev.put (s.counter.getD 0 + 1) ::
          (s.clients.filter (fun c => !c.broken)).map
            (fun c => Ev.deliver c.id (s.counter.getD 0 + 1)
              (sseRecord (s.counter.getD 0 + 1)) false)) ∧
    (∀ s n, s.clients ≠ [] → s.counter = some n →
      (step s (Op.fetch "/events" true)).threw = true ∧
      (step s (Op.fetch "/events" true)).state.clients =
        s.clients ++ [⟨s.nextClientId, true⟩] ∧
      (step s (Op.fetch "/events" true)).evs = [] ∧
      (step s (Op.fetch "/events" true)).state.handlers = s.handlers) := by
  constructor
  · intro s t ht
    refine ⟨?_, ?_, ?_⟩ <;>
      simp [step, tickStep, ht, broadcast_spec] <;>
      split <;>
      simp [stopCounting_clients]
  · intro s n h1 h2
    obtain ⟨c0, cl, iv, st, hd, nc, nt, lt⟩ := s
    simp only at h1 h2
    subst h2
    refine ⟨?_, ?_, ?_, ?_⟩ <;> simp [step, attach, h1]

/-- Closed instance of `c4_amended`: a tick over clients 0 (live), 1
(dead), 2 (live) at counter 3 detaches only client 1 and still delivers 4
to clients 0 and 2; and a dead second subscriber attaching at counter 5
makes the attach throw while staying in the set. -/
theorem c4_amended_witness :
    ((step { counter := some 3,
             clients := [⟨0, false⟩, ⟨1, true⟩, ⟨2, false⟩],
             intervalId := some 0, storage := some 3, handlers := [0, 1, 2],
             nextClientId := 3, nextTimer := 1, liveTimers := [0] }
        Op.tick).threw = false ∧
      (step { counter := some 3,
              clients := [⟨0, false⟩, ⟨1, true⟩, ⟨2, false⟩],
              intervalId := some 0, storage := some 3, handlers := [0, 1, 2],
              nextClientId := 3, nextTimer := 1, liveTimers := [0] }
          Op.tick).state.clients =
        ([⟨0, false⟩, ⟨1, true⟩, ⟨2, false⟩] : List Client).filter
          (fun c => !c.broken) ∧
      (step { counter := some 3,
              clients := [⟨0, false⟩, ⟨1, true⟩, ⟨2, false⟩],
              intervalId := some 0, storage := some 3, handlers := [0, 1, 2],
              nextClientId := 3, nextTimer := 1, liveTimers := [0] }
          Op.tick).evs =
        Ev.put ((some 3).getD 0 + 1) ::
          (([⟨0, false⟩, ⟨1, true⟩, ⟨2, false⟩] : List Client).filter
            (fun c => !c.broken)).map
            (fun c => Ev.deliver c.id ((some 3).getD 0 + 1)
              (sseRecord ((some 3).getD 0 + 1)) false)) ∧
    ((step { counter := some 5, clients := [⟨0, false⟩], intervalId := some 0,
             storage := some 5, handlers := [0], nextClientId := 1,
             nextTimer := 1, liveTimers := [0] }
        (Op.fetch "/events" true)).threw = true ∧
      (step { counter := some 5, clients := [⟨0, false⟩],
              intervalId := some 0, storage := some 5, handlers := [0],
              nextClientId := 1, nextTimer := 1, liveTimers := [0] }
          (Op.fetch "/events" true)).state.clients =
        [⟨0, false⟩] ++ [⟨1, true⟩] ∧
      (step { counter := some 5, clients := [⟨0, false⟩], intervalId := some 0,
              storage := some 5, handlers := [0], nextClientId := 1,
              nextTimer := 1, liveTimers := [0] }
          (Op.fetch "/events" true)).evs = [] ∧
      (step { counter := some 5, clients := [⟨0, false⟩], intervalId := some 0,
              storage := some 5, handlers := [0], nextClientId := 1,
              nextTimer := 1, liveTimers := [0] }
          (Op.fetch "/events" true)).state.handlers = [0]) :=
  ⟨c4_amended.1
      { counter := some 3, clients := [⟨0, false⟩, ⟨1, true⟩, ⟨2, false⟩],
        intervalId := some 0, storage := some 3, handlers := [0, 1, 2],
        nextClientId := 3, nextTimer := 1, liveTimers := [0] } 0 rfl,
    c4_amended.2
      { counter := some 5, clients := [⟨0, false⟩], intervalId := some 0,
        storage := some 5, handlers := [0], nextClientId := 1,
        nextTimer := 1, liveTimers := [0] } 5 (by decide) rfl⟩

/-- Starting the timer preserves the timer-bookkeeping invariant. -/
theorem timerInv_startCounting {s : SessionState} (h : TimerInv s) :
    TimerInv (startCounting s) := by
  unfold TimerInv startCounting at *
  cases hiv : s.intervalId <;> simp [hiv] at h ⊢ <;> simp [h]

/-- Clearing the timer preserves the timer-bookkeeping invariant. -/
theorem timerInv_stopCounting {s : SessionState} (h : TimerInv s) :
    TimerInv (stopCounting s) := by
  unfold TimerInv stopCounting at *
  cases hiv : s.intervalId with
  | none => rw [hiv] at h ⊢; exact h
  | some t =>
      rw [hiv] at h
      simp at h
      simp [h]

/-- Every serialized operation preserves the timer-bookkeeping
invariant. -/
theorem timerInv_step (s : SessionState) (op : Op) (h : TimerInv s) :
    TimerInv (step s op).state := by
  obtain ⟨c0, cl, iv, st, hd, nc, nt, lt⟩ := s
  unfold TimerInv at *
  cases op with
  | fetch p b =>
      by_cases h1 : (p = "/" ∨ p = "")
      · simpa [step, h1] using h
      · by_cases h2 : p = "/events"
        · rcases cl with _ | ⟨cc, cl'⟩ <;> cases c0 <;> cases b <;>
            cases iv <;>
            simp_all [step, attach, startCounting, h1, h2]
        · simpa [step, h1, h2] using h
  | abortSig cid =>
      by_cases h1 : cid ∈ hd
      · cases iv <;> simp_all [step, abortStep, stopCounting] <;>
          split <;> simp_all
      · simp_all [step, abortStep]
  | tick =>
      cases iv with
      | none => simpa [step, tickStep] using h
      | some t =>
          simp_all [step, tickStep, stopCounting]
          split <;> simp_all

/-- The timer-bookkeeping invariant holds after any run of serialized
operations. -/
theorem timerInv_run (ops : List Op) (s : SessionState) (h : TimerInv s) :
    TimerInv (run s ops).1 := by
  induction ops generalizing s with
  | nil => exact h
  | cons op rest ih =>
      simp only [run]
      exact ih _ (timerInv_step s op h)

/-- C10: at most one `setInterval` timer ever exists for a session at any
reachable state; `startCounting` with a timer already running is a no-op,
`stopCounting` with no timer is a no-op, `stopCounting` always clears the
handle, and a subsequent `startCounting` then allocates a fresh timer. -/
theorem c10_single_timer :
    (∀ s0 ops, ((run (initState s0) ops).1.liveTimers).length ≤ 1) ∧
    (∀ s, s.intervalId.isSome = true → startCounting s = s) ∧
    (∀ s, s.intervalId = none → stopCounting s = s) ∧
    (∀ s, (stopCounting s).intervalId = none) ∧
    (∀ s, s.intervalId = none →
      (startCounting s).intervalId = some s.nextTimer) := by
  refine ⟨?_, ?_, ?_, ?_, ?_⟩
  · intro s0 ops
    have h := timerInv_run ops (initState s0) rfl
    rw [TimerInv] at h
    rw [h]
    cases (run (initState s0) ops).1.intervalId <;> simp
  · intro s h
    unfold startCounting
    cases hiv : s.intervalId with
    | some t => rfl
    | none => rw [hiv] at h; simp at h
  · intro s h
    unfold stopCounting
    rw [h]
  · intro s
    unfold stopCounting
    cases hiv : s.intervalId <;> simp [hiv]
  · intro s h
    unfold startCounting
    rw [h]

/-- Closed instance of `c10_single_timer`: the no-op and freshness parts
at concrete states, and the global bound on a concrete run. -/
theorem c10_single_timer_witness :
    ((run (initState none)
        [Op.fetch "/events" false, Op.tick, Op.abortSig 0,
         Op.fetch "/events" false]).1.liveTimers).length ≤ 1 ∧
    startCounting
      { counter := some 1, clients := [⟨0, false⟩],
        intervalId := some 4, storage := some 1, handlers := [0],
        nextClientId := 1, nextTimer := 5, liveTimers := [4] } =
      ({ counter := some 1, clients := [⟨0, false⟩], intervalId := some 4,
         storage := some 1, handlers := [0], nextClientId := 1,
         nextTimer := 5, liveTimers := [4] } : SessionState) ∧
    stopCounting (initState none) = initState none ∧
    (startCounting (initState none)).intervalId =
      some (initState none).nextTimer :=
  ⟨c10_single_timer.1 none
      [Op.fetch "/events" false, Op.tick, Op.abortSig 0,
       Op.fetch "/events" false],
    c10_single_timer.2.1
      { counter := some 1, clients := [⟨0, false⟩], intervalId := some 4,
        storage := some 1, handlers := [0], nextClientId := 1,
        nextTimer := 5, liveTimers := [4] } rfl,
    c10_single_timer.2.2.1 (initState none) rfl,
    c10_single_timer.2.2.2.2 (initState none) rfl⟩

/-- Starting the timer never touches the client set. -/
theorem startCounting_clients (s : SessionState) :
    (startCounting s).clients = s.clients := by
  unfold startCounting
  cases s.intervalId <;> rfl

/-- Starting the timer never touches the counter. -/
theorem startCounting_counter (s : SessionState) :
    (startCounting s).counter = s.counter := by
  unfold startCounting
  cases s.intervalId <;> rfl

/-- Starting the timer never touches the durable store. -/
theorem startCounting_storage (s : SessionState) :
    (startCounting s).storage = s.storage := by
  unfold startCounting
  cases s.intervalId <;> rfl

/-- Starting the timer never touches the client-id allocator. -/
theorem startCounting_nextClientId (s : SessionState) :
    (startCounting s).nextClientId = s.nextClientId := by
  unfold startCounting
  cases s.intervalId <;> rfl

/-- After `startCounting` a timer handle is always present. -/
theorem startCounting_isSome (s : SessionState) :
    (startCounting s).intervalId.isSome = true := by
  unfold startCounting
  cases hiv : s.intervalId <;> simp [hiv]

/-- Stopping the timer never touches the counter. -/
theorem stopCounting_counter (s : SessionState) :
    (stopCounting s).counter = s.counter := by
  unfold stopCounting
  cases s.intervalId <;> rfl

/-- Stopping the timer never touches the durable store. -/
theorem stopCounting_storage (s : SessionState) :
    (stopCounting s).storage = s.storage := by
  unfold stopCounting
  cases s.intervalId <;> rfl

/-- Stopping the timer never touches the client-id allocator. -/
theorem stopCounting_nextClientId (s : SessionState) :
    (stopCounting s).nextClientId = s.nextClientId := by
  unfold stopCounting
  cases s.intervalId <;> rfl

/-- After `stopCounting` the timer handle is always cleared. -/
theorem stopCounting_intervalId (s : SessionState) :
    (stopCounting s).intervalId = none := by
  unfold stopCounting
  cases hiv : s.intervalId <;> simp [hiv]

/-- The Idle/Running equivalence (a timer handle exists iff the subscriber
set is non-empty) is preserved by every serialized operation. -/
theorem running_iff_step (s : SessionState) (op : Op)
    (h : s.intervalId.isSome = true ↔ s.clients ≠ []) :
    (step s op).state.intervalId.isSome = true ↔
      (step s op).state.clients ≠ [] := by
  cases op with
  | fetch p b =>
      by_cases h1 : (p = "/" ∨ p = "")
      · simpa [step, h1] using h
      · by_cases h2 : p = "/events"
        · obtain ⟨c0, cl, iv, st, hd, nc, nt, lt⟩ := s
          simp only at h
          by_cases hcl : cl = []
          · subst hcl
            simp [step, attach, h1, h2, startCounting_isSome,
              startCounting_clients]
          · have hiv : iv.isSome = true := h.mpr hcl
            cases b <;>
              simp [step, attach, h1, h2, hcl, hiv]
        · simpa [step, h1, h2] using h
  | abortSig cid =>
      obtain ⟨c0, cl, iv, st, hd, nc, nt, lt⟩ := s
      simp only at h
      by_cases h1 : cid ∈ hd
      · by_cases hcs : cl.filter (fun c => c.id != cid) = []
        · simp [step, abortStep, h1, hcs, stopCounting_intervalId,
            stopCounting_clients]
        · have hcl : cl ≠ [] := by
            intro he
            subst he
            simp at hcs
          have hiv : iv.isSome = true := h.mpr hcl
          simp [step, abortStep, h1, hcs, hiv]
      · simpa [step, abortStep, h1] using h
  | tick =>
      obtain ⟨c0, cl, iv, st, hd, nc, nt, lt⟩ := s
      simp only at h
      cases iv with
      | none => simpa [step, tickStep] using h
      | some t =>
          by_cases hcs : (broadcast cl (c0.getD 0 + 1)).1 = []
          · simp [step, tickStep, hcs, stopCounting_intervalId,
              stopCounting_clients]
          · simp [step, tickStep, hcs]

/-- The Idle/Running equivalence holds after any run of serialized
operations, from any state satisfying it. -/
theorem running_iff_run (ops : List Op) (s : SessionState)
    (h : s.intervalId.isSome = true ↔ s.clients ≠ []) :
    (run s ops).1.intervalId.isSome = true ↔ (run s ops).1.clients ≠ [] := by
  induction ops generalizing s with
  | nil => exact h
  | cons op rest ih =>
      simp only [run]
      exact ih _ (running_iff_step s op h)

/-- C3: after any sequence of operations on a fresh activation, a tick
timer exists if and only if the live subscriber set is non-empty — the
first attach starts the loop, removal of the last subscriber (abort or
failed delivery during a tick) stops it. -/
theorem c3_running_iff_subscribers (s0 : Option Nat) (ops : List Op) :
    (run (initState s0) ops).1.intervalId.isSome = true ↔
      (run (initState s0) ops).1.clients ≠ [] :=
  running_iff_run ops (initState s0) (by simp [initState])

/-- The durable-store content after the concatenation of two traces. -/
theorem storeAfter_append (a b : List Ev) (st : Option Nat) :
    storeAfter st (a ++ b) = storeAfter (storeAfter st a) b := by
  induction a generalizing st with
  | nil => rfl
  | cons e rest ih => cases e <;> simp [storeAfter, ih]

/-- Splitting the persistence-before-broadcast check over a trace
concatenation. -/
theorem deliversCommitted_append (a b : List Ev) (st : Option Nat) :
    deliversCommitted st (a ++ b) =
      (deliversCommitted st a && deliversCommitted (storeAfter st a) b) := by
  induction a generalizing st with
  | nil => rfl
  | cons e rest ih =>
      cases e <;> simp [deliversCommitted, storeAfter, ih, Bool.and_assoc]

/-- A block of tick deliveries of the freshly persisted value `v` passes
the persistence-before-broadcast check. -/
theorem deliversCommitted_tickBlock (v : Nat) (cs : List Client) (p : String) :
    deliversCommitted (some v)
      (cs.map (fun c => Ev.deliver c.id v p false)) = true := by
  induction cs with
  | nil => rfl
  | cons c rest ih => simp [deliversCommitted, ih]

/-- Deliveries do not change the durable store. -/
theorem storeAfter_tickBlock (v : Nat) (st : Option Nat) (cs : List Client)
    (p : String) :
    storeAfter st (cs.map (fun c => Ev.deliver c.id v p false)) = st := by
  induction cs with
  | nil => rfl
  | cons c rest ih => simp [storeAfter, ih]

/-- Commit invariant: once the counter is loaded, the in-memory value
equals the durable value (with the absent-cell default 0). -/
def CommitInv (s : SessionState) : Prop :=
  ∀ v, s.counter = some v → s.storage.getD 0 = v

/-- One serialized operation emits only committed deliveries, threads the
durable store correctly through its trace, and preserves the commit
invariant. -/
theorem commit_step (s : SessionState) (op : Op) (h : CommitInv s) :
    deliversCommitted s.storage (step s op).evs = true ∧
    storeAfter s.storage (step s op).evs = (step s op).state.storage ∧
    CommitInv (step s op).state := by
  cases op with
  | fetch p b =>
      by_cases h1 : (p = "/" ∨ p = "")
      · exact ⟨by simp [step, h1, deliversCommitted],
          by simp [step, h1, storeAfter],
          by simpa [step, h1] using h⟩
      · by_cases h2 : p = "/events"
        · obtain ⟨c0, cl, iv, st, hd, nc, nt, lt⟩ := s
          simp only [CommitInv] at h
          cases c0 with
          | none =>
              cases b <;>
                by_cases hcl : cl = [] <;>
                simp_all [step, attach, CommitInv, deliversCommitted,
                  storeAfter, startCounting_storage, startCounting_counter]
          | some v =>
              have hv := h v rfl
              cases b <;>
                by_cases hcl : cl = [] <;>
                simp_all [step, attach, CommitInv, deliversCommitted,
                  storeAfter, startCounting_storage, startCounting_counter]
        · exact ⟨by simp [step, h1, h2, deliversCommitted],
            by simp [step, h1, h2, storeAfter],
            by simpa [step, h1, h2] using h⟩
  | abortSig cid =>
      refine ⟨?_, ?_, ?_⟩ <;>
        simp only [step, abortStep] <;>
        split <;>
        first
        | rfl
        | (split <;>
            simp_all [CommitInv, deliversCommitted, storeAfter,
              stopCounting_storage, stopCounting_counter])
        | simpa using h
  | tick =>
      obtain ⟨c0, cl, iv, st, hd, nc, nt, lt⟩ := s
      simp only [CommitInv] at h
      cases iv with
      | none => exact ⟨rfl, rfl, by simpa [step, tickStep] using h⟩
      | some t =>
          refine ⟨?_, ?_, ?_⟩ <;>
            simp [step, tickStep, broadcast_spec, deliversCommitted,
              storeAfter, deliversCommitted_tickBlock, storeAfter_tickBlock,
              CommitInv] <;>
            split <;>
            simp_all [stopCounting_storage, stopCounting_counter,
              storeAfter_tickBlock]

/-- Every delivery in the trace of any run from a committed state carries
the durable value as of the moment of delivery. -/
theorem commit_run (ops : List Op) (s : SessionState) (h : CommitInv s) :
    deliversCommitted s.storage (run s ops).2 = true := by
  induction ops generalizing s with
  | nil => rfl
  | cons op rest ih =>
      simp only [run]
      rw [deliversCommitted_append]
      have hs := commit_step s op h
      rw [hs.1, hs.2.1]
      simpa using ih (step s op).state hs.2.2

/-- C1: in any run of a fresh activation over a durable store holding
`s0`, every value delivered to any subscriber (tick broadcast or catch-up)
equals the durable store's content (default 0) at the moment of delivery:
the `storage.put` of a tick completes before that tick's value reaches any
subscriber, and no subscriber ever observes an uncommitted value. -/
theorem c1_persist_before_broadcast (s0 : Option Nat) (ops : List Op) :
    deliversCommitted s0 (run (initState s0) ops).2 = true :=
  commit_run ops (initState s0) (fun v hv => by simp [initState] at hv)

/-- Storage reads add up over a trace concatenation. -/
theorem getCount_append (a b : List Ev) :
    getCount (a ++ b) = getCount a + getCount b := by
  induction a with
  | nil => simp [getCount]
  | cons e rest ih => cases e <;> simp [getCount, ih] <;> omega

/-- Tick deliveries perform no storage read. -/
theorem getCount_tickBlock (v : Nat) (p : String) (cs : List Client) :
    getCount (cs.map (fun c => Ev.deliver c.id v p false)) = 0 := by
  induction cs with
  | nil => rfl
  | cons c rest ih => simp [getCount, ih]

/-- One serialized operation performs at most one durable read; any read
leaves the counter loaded, and an operation on an already-loaded counter
performs no read and keeps it loaded. -/
theorem getCount_step (s : SessionState) (op : Op) :
    getCount (step s op).evs ≤ 1 ∧
    (1 ≤ getCount (step s op).evs → (step s op).state.counter ≠ none) ∧
    (s.counter ≠ none →
      getCount (step s op).evs = 0 ∧ (step s op).state.counter ≠ none) := by
  cases op with
  | fetch p b =>
      by_cases h1 : (p = "/" ∨ p = "")
      · simp [step, h1, getCount]
      · by_cases h2 : p = "/events"
        · obtain ⟨c0, cl, iv, st, hd, nc, nt, lt⟩ := s
          cases c0 <;> by_cases hcl : cl = [] <;> cases b <;>
            simp [step, attach, h1, h2, hcl, getCount,
              startCounting_counter]
        · simp [step, h1, h2, getCount]
  | abortSig cid =>
      refine ⟨?_, ?_, ?_⟩ <;>
        simp only [step, abortStep] <;>
        split <;>
        try split
      all_goals simp_all [getCount, stopCounting_counter]
  | tick =>
      obtain ⟨c0, cl, iv, st, hd, nc, nt, lt⟩ := s
      cases iv with
      | none => simp [step, tickStep, getCount]
      | some t =>
          refine ⟨?_, ?_, ?_⟩
          · simp [step, tickStep, broadcast_spec, getCount,
              getCount_tickBlock]
          · intro hge
            simp only [step, tickStep, broadcast_spec]
            split <;> simp [stopCounting_counter]
          · intro hn
            refine ⟨?_, ?_⟩
            · simp [step, tickStep, broadcast_spec, getCount,
                getCount_tickBlock]
            · simp only [step, tickStep, broadcast_spec]
              split <;> simp [stopCounting_counter]

/-- Any run performs at most one durable read, and none at all if the
counter is already loaded. -/
theorem getCount_run (ops : List Op) (s : SessionState) :
    getCount (run s ops).2 ≤ 1 ∧
    (s.counter ≠ none → getCount (run s ops).2 = 0) := by
  induction ops generalizing s with
  | nil => simp [run, getCount]
  | cons op rest ih =>
      obtain ⟨ha, hb, hc⟩ := getCount_step s op
      obtain ⟨ra, rb⟩ := ih (step s op).state
      constructor
      · simp only [run]
        rw [getCount_append]
        rcases Nat.lt_or_ge (getCount (step s op).evs) 1 with h0 | h01
        · omega
        · have := rb (hb h01)
          omega
      · intro hn
        obtain ⟨h0, hn2⟩ := hc hn
        simp only [run]
        rw [getCount_append, h0, rb hn2]

/-- C7: on a fresh activation, at most one durable read ever happens; the
first `/events` request with an unloaded counter reads storage first
(defaulting to 0 when the cell is absent) and caches the result in memory;
any request arriving with the counter already loaded performs no read and
reuses the in-memory value. -/
theorem c7_lazy_load :
    (∀ s0 ops, getCount (run (initState s0) ops).2 ≤ 1) ∧
    (∀ s b, s.counter = none →
      ((step s (Op.fetch "/events" b)).evs).head? =
        some (Ev.get s.storage) ∧
      (step s (Op.fetch "/events" b)).state.counter =
        some (s.storage.getD 0)) ∧
    (∀ s v b, s.counter = some v →
      getCount (step s (Op.fetch "/events" b)).evs = 0 ∧
      (step s (Op.fetch "/events" b)).state.counter = some v) := by
  refine ⟨?_, ?_, ?_⟩
  · intro s0 ops
    exact (getCount_run ops (initState s0)).1
  · intro s b hn
    obtain ⟨c0, cl, iv, st, hd, nc, nt, lt⟩ := s
    simp only at hn
    subst hn
    by_cases hcl : cl = [] <;> cases b <;>
      simp [step, attach, hcl, startCounting_counter]
  · intro s v b hv
    obtain ⟨c0, cl, iv, st, hd, nc, nt, lt⟩ := s
    simp only at hv
    subst hv
    by_cases hcl : cl = [] <;> cases b <;>
      simp [step, attach, hcl, getCount, startCounting_counter]

/-- Closed instance of `c7_lazy_load`: the read bound on a concrete run,
the first load on a fresh session over a store holding 9, and the re-use
with a loaded counter. -/
theorem c7_lazy_load_witness :
    getCount (run (initState (some 9))
      [Op.fetch "/events" false, Op.tick,
       Op.fetch "/events" false]).2 ≤ 1 ∧
    (((step (initState (some 9)) (Op.fetch "/events" false)).evs).head? =
        some (Ev.get (initState (some 9)).storage) ∧
      (step (initState (some 9)) (Op.fetch "/events" false)).state.counter =
        some (((initState (some 9)).storage).getD 0)) ∧
    (getCount
        (step
          { counter := some 9, clients := [⟨0, false⟩],
            intervalId := some 0, storage := some 9, handlers := [0],
            nextClientId := 1, nextTimer := 1, liveTimers := [0] }
          (Op.fetch "/events" false)).evs = 0 ∧
      (step
          { counter := some 9, clients := [⟨0, false⟩],
            intervalId := some 0, storage := some 9, handlers := [0],
            nextClientId := 1, nextTimer := 1, liveTimers := [0] }
          (Op.fetch "/events" false)).state.counter = some 9) :=
  ⟨c7_lazy_load.1 (some 9)
      [Op.fetch "/events" false, Op.tick, Op.fetch "/events" false],
    c7_lazy_load.2.1 (initState (some 9)) false rfl,
    c7_lazy_load.2.2
      { counter := some 9, clients := [⟨0, false⟩], intervalId := some 0,
        storage := some 9, handlers := [0], nextClientId := 1,
        nextTimer := 1, liveTimers := [0] } 9 false rfl⟩

/-- Delivered values split over a trace concatenation. -/
theorem valuesTo_append (cid : Nat) (a b : List Ev) :
    valuesTo cid (a ++ b) = valuesTo cid a ++ valuesTo cid b := by
  induction a with
  | nil => rfl
  | cons e rest ih =>
      cases e with
      | get v => simp [valuesTo, ih]
      | put v => simp [valuesTo, ih]
      | deliver c v p cu =>
          by_cases hc : c = cid <;> simp [valuesTo, hc, ih]

/-- Tick-delivered values split over a trace concatenation. -/
theorem tickValuesTo_append (cid : Nat) (a b : List Ev) :
    tickValuesTo cid (a ++ b) = tickValuesTo cid a ++ tickValuesTo cid b := by
  induction a with
  | nil => rfl
  | cons e rest ih =>
      cases e with
      | get v => simp [tickValuesTo, ih]
      | put v => simp [tickValuesTo, ih]
      | deliver c v p cu =>
          cases cu with
          | false => by_cases hc : c = cid <;> simp [tickValuesTo, hc, ih]
          | true => simp [tickValuesTo, ih]

/-- Values a tick block delivers to subscriber `cid`: one copy of `v` per
client of the block whose id is `cid`. -/
theorem valuesTo_tickBlock (cid v : Nat) (p : String) (cs : List Client) :
    valuesTo cid (cs.map (fun c => Ev.deliver c.id v p false)) =
      (cs.filter (fun c => c.id == cid)).map (fun _ => v) := by
  induction cs with
  | nil => rfl
  | cons c rest ih =>
      by_cases hc : c.id = cid <;>
        simp [valuesTo, hc, ih, List.filter_cons]

/-- Same as `valuesTo_tickBlock` for the tick-only projection. -/
theorem tickValuesTo_tickBlock (cid v : Nat) (p : String) (cs : List Client) :
    tickValuesTo cid (cs.map (fun c => Ev.deliver c.id v p false)) =
      (cs.filter (fun c => c.id == cid)).map (fun _ => v) := by
  induction cs with
  | nil => rfl
  | cons c rest ih =>
      by_cases hc : c.id = cid <;>
        simp [tickValuesTo, hc, ih, List.filter_cons]

/-- In a client list with pairwise distinct ids, at most one client has a
given id. -/
theorem filter_id_length_le_one (cid : Nat) (cs : List Client)
    (h : (cs.map Client.id).Nodup) :
    (cs.filter (fun c => c.id == cid)).length ≤ 1 := by
  induction cs with
  | nil => simp
  | cons c rest ih =>
      rw [List.map_cons, List.nodup_cons] at h
      by_cases hc : c.id = cid
      · have hrest : rest.filter (fun c => c.id == cid) = [] := by
          rw [List.filter_eq_nil_iff]
          intro d hd
          simp only [beq_iff_eq]
          intro he
          exact h.1 (by
            rw [hc, ← he]
            exact List.mem_map_of_mem Client.id hd)
        simp [List.filter_cons, hc, hrest]
      · simp only [List.filter_cons, beq_iff_eq, hc]
        simpa using ih h.2

/-- A list of length at most one is vacuously a chain. -/
theorem chain'_of_length_le_one {R : Nat → Nat → Prop} {l : List Nat}
    (h : l.length ≤ 1) : List.Chain' R l := by
  match l with
  | [] => exact List.chain'_nil
  | [x] => exact List.chain'_singleton x
  | x :: y :: rest => simp at h

/-- Membership transfer from `head?`. -/
theorem mem_of_head?_mem {y : Nat} {l : List Nat} (h : y ∈ l.head?) :
    y ∈ l := by
  rw [List.eq_cons_of_mem_head? h]
  exact List.mem_cons_self y l.tail

/-- A chain extended on the left by a block of at most one element
dominated pointwise by the tail. -/
theorem chain'_append_le_one {R : Nat → Nat → Prop} {a b : List Nat}
    (ha : a.length ≤ 1) (hb : List.Chain' R b)
    (hab : ∀ x ∈ a, ∀ y ∈ b, R x y) : List.Chain' R (a ++ b) := by
  match a with
  | [] => simpa using hb
  | [x] =>
      rw [List.singleton_append, List.chain'_cons']
      exact ⟨fun y hy => hab x (by simp) y (mem_of_head?_mem hy), hb⟩
  | x :: y :: rest => simp at ha

/-- Reachability invariant used by the monotonicity proof: the counter can
only be unloaded while the tick loop is idle. -/
def LoadInv (s : SessionState) : Prop :=
  s.counter = none → s.intervalId = none

/-- Every serialized operation preserves `LoadInv`. -/
theorem loadInv_step (s : SessionState) (op : Op) (h : LoadInv s) :
    LoadInv (step s op).state := by
  cases op with
  | fetch p b =>
      by_cases h1 : (p = "/" ∨ p = "")
      · simpa [step, h1] using h
      · by_cases h2 : p = "/events"
        · obtain ⟨c0, cl, iv, st, hd, nc, nt, lt⟩ := s
          intro hn
          exfalso
          revert hn
          cases c0 <;> by_cases hcl : cl = [] <;> cases b <;>
            simp [step, attach, h1, h2, hcl, startCounting_counter]
        · simpa [step, h1, h2] using h
  | abortSig cid =>
      obtain ⟨c0, cl, iv, st, hd, nc, nt, lt⟩ := s
      simp only [LoadInv] at h
      intro hn
      by_cases h1 : cid ∈ hd <;>
        by_cases hcs : cl.filter (fun c => c.id != cid) = []
      · simp [step, abortStep, h1, hcs, stopCounting_intervalId]
      · revert hn
        simp only [step, abortStep, LoadInv]
        simp [h1, hcs]
        intro hn
        exact h hn
      · revert hn
        simp only [step, abortStep, LoadInv]
        simp [h1]
        intro hn
        exact h hn
      · revert hn
        simp only [step, abortStep, LoadInv]
        simp [h1]
        intro hn
        exact h hn
  | tick =>
      obtain ⟨c0, cl, iv, st, hd, nc, nt, lt⟩ := s
      cases iv with
      | none => simpa [step, tickStep] using h
      | some t =>
          intro hn
          exfalso
          revert hn
          simp only [step, tickStep]
          split <;> simp [stopCounting_counter]

/-- The effective counter value never decreases in one serialized
operation (from a state satisfying `LoadInv`). -/
theorem cv_step (s : SessionState) (op : Op) (h : LoadInv s) :
    cv s ≤ cv (step s op).state := by
  cases op with
  | fetch p b =>
      by_cases h1 : (p = "/" ∨ p = "")
      · simp [step, h1]
      · by_cases h2 : p = "/events"
        · obtain ⟨c0, cl, iv, st, hd, nc, nt, lt⟩ := s
          cases c0 <;> by_cases hcl : cl = [] <;> cases b <;>
            simp [step, attach, h1, h2, hcl, cv,
              startCounting_counter, startCounting_storage]
        · simp [step, h1, h2]
  | abortSig cid =>
      simp only [step, abortStep]
      split
      · split
        · simp [cv, stopCounting_counter, stopCounting_storage]
        · simp [cv]
      · simp [cv]
  | tick =>
      obtain ⟨c0, cl, iv, st, hd, nc, nt, lt⟩ := s
      cases iv with
      | none => simp [step, tickStep]
      | some t =>
          cases c0 with
          | none =>
              exact absurd (h rfl) (by simp)
          | some n =>
              simp only [step, tickStep]
              split <;>
                simp [cv, stopCounting_counter, stopCounting_storage,
                  Nat.le_succ]

/-- `LoadInv` holds along any run and the effective counter value is
non-decreasing along it. -/
theorem cv_run (ops : List Op) (s : SessionState) (h : LoadInv s) :
    LoadInv (run s ops).1 ∧ cv s ≤ cv (run s ops).1 := by
  induction ops generalizing s with
  | nil => exact ⟨h, Nat.le_refl _⟩
  | cons op rest ih =>
      obtain ⟨h1, h2⟩ := ih (step s op).state (loadInv_step s op h)
      exact ⟨h1, Nat.le_trans (cv_step s op h) h2⟩

/-- Running a concatenation of operation lists is running them in
sequence. -/
theorem run_append (a b : List Op) (s : SessionState) :
    (run s (a ++ b)).1 = (run (run s a).1 b).1 := by
  induction a generalizing s with
  | nil => rfl
  | cons op rest ih =>
      simp only [List.cons_append, run]
      exact ih (step s op).state

/-- Client ids are bounded by the allocator and pairwise distinct; every
serialized operation preserves this. -/
theorem idInv_step (s : SessionState) (op : Op)
    (h1 : ∀ c ∈ s.clients, c.id < s.nextClientId)
    (h2 : (s.clients.map Client.id).Nodup) :
    (∀ c ∈ (step s op).state.clients,
      c.id < (step s op).state.nextClientId) ∧
    ((step s op).state.clients.map Client.id).Nodup := by
  cases op with
  | fetch p b =>
      by_cases hp1 : (p = "/" ∨ p = "")
      · simpa [step, hp1] using ⟨h1, h2⟩
      · by_cases hp2 : p = "/events"
        · obtain ⟨c0, cl, iv, st, hd, nc, nt, lt⟩ := s
          simp only at h1 h2
          have key :
              (∀ c ∈ cl ++ [(⟨nc, b⟩ : Client)], c.id < nc + 1) ∧
              ((cl ++ [(⟨nc, b⟩ : Client)]).map Client.id).Nodup := by
            constructor
            · intro c hc
              rcases List.mem_append.mp hc with hc | hc
              · exact Nat.lt_succ_of_lt (h1 c hc)
              · simp at hc
                subst hc
                exact Nat.lt_succ_self nc
            · rw [List.map_append, List.nodup_append]
              refine ⟨h2, by simp, ?_⟩
              intro x hx
              simp only [List.map_cons, List.map_nil, List.mem_singleton]
              intro he
              rcases List.mem_map.mp hx with ⟨c, hc, hce⟩
              have hlt : c.id < nc := h1 c hc
              rw [hce, he] at hlt
              exact Nat.lt_irrefl nc hlt
          cases c0 <;> by_cases hcl : cl = [] <;> cases b <;>
            simp_all [step, attach, hp1, hp2, hcl,
              startCounting_clients, startCounting_nextClientId]
        · simpa [step, hp1, hp2] using ⟨h1, h2⟩
  | abortSig cid =>
      have hn : ((s.clients.filter
          (fun c => c.id != cid)).map Client.id).Nodup :=
        ((List.filter_sublist s.clients).map Client.id).nodup h2
      simp only [step, abortStep]
      split
      · split
        · refine ⟨?_, ?_⟩
          · intro c hc
            simp only [stopCounting_clients] at hc
            simp only [stopCounting_nextClientId]
            exact h1 c (List.mem_of_mem_filter hc)
          · simp only [stopCounting_clients]
            exact hn
        · exact ⟨fun c hc => h1 c (List.mem_of_mem_filter hc), hn⟩
      · exact ⟨h1, h2⟩
  | tick =>
      have hn : ((s.clients.filter
          (fun c => !c.broken)).map Client.id).Nodup :=
        ((List.filter_sublist s.clients).map Client.id).nodup h2
      simp only [step, tickStep]
      split
      · exact ⟨h1, h2⟩
      · rw [broadcast_spec]
        split
        · refine ⟨?_, ?_⟩
          · intro c hc
            simp only [stopCounting_clients] at hc
            simp only [stopCounting_nextClientId]
            exact h1 c (List.mem_of_mem_filter hc)
          · simp only [stopCounting_clients]
            exact hn
        · exact ⟨fun c hc => h1 c (List.mem_of_mem_filter hc), hn⟩

/-- Values one operation delivers to subscriber `cid`: nothing, one
catch-up copy of the current effective counter (leaving it unchanged), or
at most one tick copy of its successor (advancing it by one). -/
theorem step_values (s : SessionState) (op : Op) (cid : Nat)
    (h2 : (s.clients.map Client.id).Nodup) (h3 : LoadInv s) :
    (valuesTo cid (step s op).evs = [] ∧
      tickValuesTo cid (step s op).evs = []) ∨
    (valuesTo cid (step s op).evs = [cv s] ∧
      tickValuesTo cid (step s op).evs = [] ∧
      cv (step s op).state = cv s) ∨
    ((∀ x ∈ valuesTo cid (step s op).evs, x = cv s + 1) ∧
      (valuesTo cid (step s op).evs).length ≤ 1 ∧
      tickValuesTo cid (step s op).evs = valuesTo cid (step s op).evs ∧
      cv (step s op).state = cv s + 1) := by
  cases op with
  | fetch p b =>
      by_cases hp1 : (p = "/" ∨ p = "")
      · left
        simp [step, hp1, valuesTo, tickValuesTo]
      · by_cases hp2 : p = "/events"
        · obtain ⟨c0, cl, iv, st, hd, nc, nt, lt⟩ := s
          by_cases hcl : cl = []
          · left
            cases c0 <;> cases b <;>
              simp [step, attach, hp1, hp2, hcl, valuesTo, tickValuesTo]
          · cases b
            · by_cases hc : nc = cid
              · right; left
                cases c0 <;>
                  simp [step, attach, hp1, hp2, hcl, hc, cv, valuesTo,
                    tickValuesTo]
              · left
                cases c0 <;>
                  simp [step, attach, hp1, hp2, hcl, hc, valuesTo,
                    tickValuesTo]
            · left
              cases c0 <;>
                simp [step, attach, hp1, hp2, hcl, valuesTo, tickValuesTo]
        · left
          simp [step, hp1, hp2, valuesTo, tickValuesTo]
  | abortSig cid2 =>
      left
      simp only [step, abortStep]
      split
      · split <;> simp [valuesTo, tickValuesTo]
      · simp [valuesTo, tickValuesTo]
  | tick =>
      obtain ⟨c0, cl, iv, st, hd, nc, nt, lt⟩ := s
      cases iv with
      | none =>
          left
          simp [step, tickStep, valuesTo, tickValuesTo]
      | some t =>
          cases c0 with
          | none => exact absurd (h3 rfl) (by simp)
          | some n =>
              right; right
              have hnds : ((cl.filter
                  (fun c => !c.broken)).map Client.id).Nodup :=
                ((List.filter_sublist cl).map Client.id).nodup
                  (by simpa using h2)
              have hevs :
                  (step ⟨some n, cl, some t, st, hd, nc, nt, lt⟩
                    Op.tick).evs =
                  Ev.put (n + 1) ::
                    (cl.filter (fun c => !c.broken)).map
                      (fun c => Ev.deliver c.id (n + 1)
                        (sseRecord (n + 1)) false) := by
                simp [step, tickStep, broadcast_spec]
              have hv :
                  valuesTo cid (step ⟨some n, cl, some t, st, hd, nc, nt, lt⟩
                    Op.tick).evs =
                  ((cl.filter (fun c => !c.broken)).filter
                    (fun c => c.id == cid)).map (fun _ => n + 1) := by
                rw [hevs]
                simp [valuesTo, valuesTo_tickBlock]
              have htv :
                  tickValuesTo cid
                    (step ⟨some n, cl, some t, st, hd, nc, nt, lt⟩
                      Op.tick).evs =
                  ((cl.filter (fun c => !c.broken)).filter
                    (fun c => c.id == cid)).map (fun _ => n + 1) := by
                rw [hevs]
                simp [tickValuesTo, tickValuesTo_tickBlock]
              have hcv2 :
                  cv (step ⟨some n, cl, some t, st, hd, nc, nt, lt⟩
                    Op.tick).state = n + 1 := by
                simp only [step, tickStep]
                split <;> simp [cv, stopCounting_counter]
              refine ⟨?_, ?_, ?_, ?_⟩
              · intro x hx
                rw [hv] at hx
                rcases List.mem_map.mp hx with ⟨c, _, hce⟩
                simpa [cv] using hce.symm
              · rw [hv, List.length_map]
                exact filter_id_length_le_one cid _ hnds
              · rw [hv, htv]
              · simpa [cv] using hcv2

/-- Monotonic delivery backbone: from any state with distinct bounded
client ids whose counter is loaded whenever the loop runs, the values any
one subscriber receives form a non-decreasing chain bounded below by the
current effective counter, and the tick-delivered ones a strictly
increasing chain strictly above it. -/
theorem chain_run (ops : List Op) (s : SessionState)
    (h1 : ∀ c ∈ s.clients, c.id < s.nextClientId)
    (h2 : (s.clients.map Client.id).Nodup)
    (h3 : LoadInv s) (cid : Nat) :
    List.Chain' (· ≤ ·) (valuesTo cid (run s ops).2) ∧
    List.Chain' (· < ·) (tickValuesTo cid (run s ops).2) ∧
    (∀ x ∈ valuesTo cid (run s ops).2, cv s ≤ x) ∧
    (∀ x ∈ tickValuesTo cid (run s ops).2, cv s < x) := by
  induction ops generalizing s with
  | nil =>
      refine ⟨?_, ?_, ?_, ?_⟩ <;> simp [run, valuesTo, tickValuesTo]
  | cons op rest ih =>
      obtain ⟨g1, g2⟩ := idInv_step s op h1 h2
      have g3 := loadInv_step s op h3
      obtain ⟨ih1, ih2, ih3, ih4⟩ := ih (step s op).state g1 g2 g3
      have hcv : cv s ≤ cv (step s op).state := cv_step s op h3
      have htr : (run s (op :: rest)).2 =
          (step s op).evs ++ (run (step s op).state rest).2 := rfl
      rw [htr, valuesTo_append, tickValuesTo_append]
      rcases step_values s op cid h2 h3 with
        ⟨hv, htv⟩ | ⟨hv, htv, hc⟩ | ⟨hall, hlen, htveq, hc⟩
      · rw [hv, htv]
        simp only [List.nil_append]
        exact ⟨ih1, ih2, fun x hx => Nat.le_trans hcv (ih3 x hx),
          fun x hx => Nat.lt_of_le_of_lt hcv (ih4 x hx)⟩
      · rw [hv, htv]
        simp only [List.nil_append]
        refine ⟨?_, ih2, ?_, ?_⟩
        · refine chain'_append_le_one (by simp) ih1 ?_
          intro x hx y hy
          have hx2 : x = cv s := by simpa using hx
          rw [hx2, ← hc]
          exact ih3 y hy
        · intro x hx
          rcases List.mem_append.mp hx with hx | hx
          · have hx2 : x = cv s := by simpa using hx
            exact Nat.le_of_eq hx2.symm
          · rw [← hc]
            exact ih3 x hx
        · intro x hx
          rw [← hc]
          exact ih4 x hx
      · refine ⟨?_, ?_, ?_, ?_⟩
        · refine chain'_append_le_one hlen ih1 ?_
          intro x hx y hy
          rw [hall x hx, ← hc]
          exact ih3 y hy
        · rw [htveq]
          refine chain'_append_le_one hlen ih2 ?_
          intro x hx y hy
          rw [hall x hx, ← hc]
          exact ih4 y hy
        · intro x hx
          rcases List.mem_append.mp hx with hx | hx
          · rw [hall x hx]
            exact Nat.le_succ (cv s)
          · exact Nat.le_trans hcv (ih3 x hx)
        · intro x hx
          rw [htveq] at hx
          rcases List.mem_append.mp hx with hx | hx
          · rw [hall x hx]
            exact Nat.lt_succ_self (cv s)
          · have := ih4 x hx
            rw [hc] at this
            exact Nat.lt_of_succ_lt this

/-- C6: over any run of a fresh activation, the values delivered to any
one subscriber form a non-decreasing sequence whose tick-driven part is
strictly increasing (no duplicates across ticks; only the one catch-up
record can repeat a value); each tick advances the counter by exactly one,
and the effective counter never decreases across operations. -/
theorem c6_monotone :
    (∀ s0 ops cid,
      List.Chain' (· ≤ ·) (valuesTo cid (run (initState s0) ops).2)) ∧
    (∀ s0 ops cid,
      List.Chain' (· < ·) (tickValuesTo cid (run (initState s0) ops).2)) ∧
    (∀ s t, s.intervalId = some t →
      (step s Op.tick).state.counter = some (s.counter.getD 0 + 1)) ∧
    (∀ s0 a b,
      cv (run (initState s0) a).1 ≤ cv (run (initState s0) (a ++ b)).1) := by
  refine ⟨?_, ?_, ?_, ?_⟩
  · intro s0 ops cid
    exact (chain_run ops (initState s0) (by simp [initState])
      (by simp [initState]) (fun _ => rfl) cid).1
  · intro s0 ops cid
    exact (chain_run ops (initState s0) (by simp [initState])
      (by simp [initState]) (fun _ => rfl) cid).2.1
  · intro s t ht
    obtain ⟨c0, cl, iv, st, hd, nc, nt, lt⟩ := s
    simp only at ht
    subst ht
    simp only [step, tickStep]
    split <;> simp [stopCounting_counter]
  · intro s0 a b
    rw [run_append]
    exact (cv_run b (run (initState s0) a).1
      (cv_run a (initState s0) (fun _ => rfl)).1).2

/-- Closed instance of `c6_monotone`: the chain properties on a concrete
two-subscriber run, and the tick increment at a concrete running state. -/
theorem c6_monotone_witness :
    List.Chain' (· ≤ ·) (valuesTo 1
      (run (initState none)
        [Op.fetch "/events" false, Op.tick, Op.fetch "/events" false,
         Op.tick]).2) ∧
    List.Chain' (· < ·) (tickValuesTo 0
      (run (initState none)
        [Op.fetch "/events" false, Op.tick, Op.fetch "/events" false,
         Op.tick]).2) ∧
    (step
        { counter := some 5, clients := [⟨0, false⟩], intervalId := some 0,
          storage := some 5, handlers := [0], nextClientId := 1,
          nextTimer := 1, liveTimers := [0] }
        Op.tick).state.counter = some ((some 5).getD 0 + 1) :=
  ⟨c6_monotone.1 none
      [Op.fetch "/events" false, Op.tick, Op.fetch "/events" false,
       Op.tick] 1,
    c6_monotone.2.1 none
      [Op.fetch "/events" false, Op.tick, Op.fetch "/events" false,
       Op.tick] 0,
    c6_monotone.2.2.1
      { counter := some 5, clients := [⟨0, false⟩], intervalId := some 0,
        storage := some 5, handlers := [0], nextClientId := 1,
        nextTimer := 1, liveTimers := [0] } 0 rfl⟩

end ResumableStream
